import Mathlib

/-!
Shallow embedding of the SEGI document-ingestion pipeline (`helpers.py`,
`main.py`) and proofs relating it to its natural-language specification.

Conventions used throughout:

* Python dictionaries and pandas DataFrames are embedded as association
  lists from a string key to a column/list of values; `Option` encodes
  Python `None` / pandas NaN.
* Library collaborators (`json.loads`, `ast.literal_eval`, BeautifulSoup's
  `html.parser`, Python's `re` engine and `pathlib`) are embedded as
  executable Lean functions faithful to their behaviour on the payload
  fragments this repository feeds them (ASCII text, integer JSON numbers,
  well-formed table markup); restrictions are noted at each definition.
* Filesystem effects (the Splitter's page files, the Extractor's Excel
  output) are embedded as explicit state passing over an association list
  from path to file content.
-/

/-! ## Python string helpers -/

/-- The ASCII whitespace characters stripped by Python's `str.strip()` and
matched by the regex class `\s` (space, tab, newline, carriage return,
vertical tab, form feed).  Non-ASCII whitespace is not modelled; it does not
occur in any input considered in this development. -/
def pyWsChars : List Char := [' ', '\t', '\n', '\r', Char.ofNat 11, Char.ofNat 12]

def isPyWs (c : Char) : Bool := pyWsChars.contains c

/-- Python `str.strip()`: remove leading and trailing whitespace. -/
def pyStrip (s : String) : String :=
  String.mk (((s.data.dropWhile isPyWs).reverse.dropWhile isPyWs).reverse)

/-- Python `str.lower()` (ASCII fragment, via `Char.toLower`). -/
def strLower (s : String) : String := String.mk (s.data.map Char.toLower)

/-- Python `str.endswith`. -/
def strEndsWith (s t : String) : Bool := t.data.isSuffixOf s.data

/-- Case-insensitive suffix test (`s.lower().endswith(t.lower())`). -/
def strEndsWithCI (s t : String) : Bool := strEndsWith (strLower s) (strLower t)

/-- `pathlib.Path(s).name`: the part of the path after the last `/`. -/
def basenameOf (s : String) : String :=
  String.mk ((s.data.reverse.takeWhile (fun c => c != '/')).reverse)

/-- Index of the last `.` in a character list, if any. -/
def lastDotIdx (cs : List Char) : Option Nat :=
  match cs.reverse.findIdx? (fun c => c == '.') with
  | none => none
  | some j => some (cs.length - 1 - j)

/-- `pathlib.Path(name).stem` for a plain file name: drop the final
dot-suffix, except when the only dot starts the name or ends it. -/
def pyStem (name : String) : String :=
  let cs := name.data
  match lastDotIdx cs with
  | none => name
  | some i => if 0 < i ∧ i + 1 < cs.length then String.mk (cs.take i) else name

/-- The maximal run of ASCII digits at the end of a character list. -/
def trailingDigits (cs : List Char) : List Char :=
  (cs.reverse.takeWhile Char.isDigit).reverse

/-- Python dict / DataFrame-column lookup on an association list
(first occurrence wins, as dict keys are unique). -/
def assocLookup {β : Type} (k : String) : List (String × β) → Option β
  | [] => none
  | (a, b) :: t => if a = k then some b else assocLookup k t

/-! ## Filename derivation (`helpers.py` lines 163–190, 396–416)

The regex searches `_page_(\d+)\.pdf$` and `^(?P<base>.+?)_page_\d+\.pdf$`
are embedded directly: a match exists iff the name ends (case-sensitively
for `extract_page_number` and `get_original_pdf_from_generated_xlsx`,
case-insensitively for `extract_original_pdf_name`) in `_page_`, a
non-empty digit run, and the extension; the captured digit group is then
necessarily the maximal trailing digit run, because the character before
any digit-suffix of that run is a digit, not the `_` required by the
pattern. -/

/-- `helpers.extract_page_number`: the digits of a `*_page_N.pdf` suffix. -/
def extract_page_number (filename : String) : Option String :=
  if strEndsWith filename ".pdf" then
    let core := filename.data.take (filename.data.length - 4)
    let ds := trailingDigits core
    if 0 < ds.length ∧ strEndsWith (String.mk (core.take (core.length - ds.length))) "_page_" then
      some (String.mk ds)
    else none
  else none

/-- `helpers.extract_original_pdf_name`: strip a final `_page_<digits>`
group (case-insensitively, base non-empty) from the basename, else the
plain stem; always re-attach a lowercase `.pdf`.  Errors are `ValueError`
messages. -/
def extract_original_pdf_name (file_name : String) : Except String String :=
  if file_name = "" then Except.error "Empty file_name"
  else if ¬ strEndsWithCI file_name ".pdf" then Except.error "File must end with .pdf/.PDF"
  else
    let name := basenameOf file_name
    let core := name.data.take (name.data.length - 4)
    let ds := trailingDigits core
    let pre := core.take (core.length - ds.length)
    if 0 < ds.length ∧ strEndsWithCI (String.mk pre) "_page_" ∧ 6 < pre.length then
      Except.ok (String.mk (pre.take (pre.length - 6)) ++ ".pdf")
    else
      Except.ok (pyStem name ++ ".pdf")

/-- `helpers.get_original_pdf_from_generated_xlsx`: stem, drop a
`_generated` suffix, strip a final `_page_<digits>` group (case-sensitive,
base non-empty), re-attach `.pdf`.  A non-string argument cannot occur
under this typing; an empty name yields `""` as in the source. -/
def get_original_pdf_from_generated_xlsx (filename : String) : String :=
  if filename = "" then ""
  else
    let base_name := pyStem (basenameOf filename)
    let base_name :=
      if strEndsWith base_name "_generated" then
        String.mk (base_name.data.take (base_name.data.length - 10))
      else base_name
    let cs := base_name.data
    let ds := trailingDigits cs
    let pre := cs.take (cs.length - ds.length)
    if 0 < ds.length ∧ strEndsWith (String.mk pre) "_page_" ∧ 6 < pre.length then
      String.mk (pre.take (pre.length - 6)) ++ ".pdf"
    else base_name ++ ".pdf"

/-! ## List balancing (`helpers.py` lines 358–394) -/

/-- The padding value chosen by `balance_lists_by_item_id` for a short
list: the placeholder for an empty list, the first element when all
elements equal it (`all(elem == lst[0] for elem in lst)`), the placeholder
otherwise. -/
def padValue {α : Type} [DecidableEq α] (placeholder : α) : List α → α
  | [] => placeholder
  | a :: rest => if (a :: rest).all (fun e => decide (e = a)) then a else placeholder

/-- The per-list body of the balancing loop: pad to `target` when shorter,
truncate when longer, keep unchanged when already of length `target`. -/
def balanceOne {α : Type} [DecidableEq α] (target : Nat) (placeholder : α) (lst : List α) : List α :=
  if lst.length < target then
    lst ++ List.replicate (target - lst.length) (padValue placeholder lst)
  else if target < lst.length then
    lst.take target
  else lst

/-- `helpers.balance_lists_by_item_id`.  The `KeyError` raised when
`"item_id"` is absent is modelled as `none`; the `TypeError` branch for a
non-list value cannot occur under this typing.  The Python function builds
its result in a deep copy, leaving the argument unchanged, so it is a pure
map over the entries. -/
def balance_lists_by_item_id {α : Type} [DecidableEq α]
    (data : List (String × List α)) (placeholder : α) : Option (List (String × List α)) :=
  match assocLookup "item_id" data with
  | none => none
  | some ids =>
    some (data.map (fun p => (p.1, balanceOne ids.length placeholder p.2)))

/-! ## Metadata enrichment (`helpers.py` lines 17–44) -/

/-- A DataFrame column whose cells may be null (`None`/NaN). -/
abbrev Col := List (Option String)

/-- A DataFrame as an association list of named columns. -/
abbrev DFm := List (String × Col)

/-- The six metadata fields copied by `enrich_df`. -/
def meta_cols : List String :=
  ["name_file", "url_file", "page", "active", "capture_log", "subject_mail"]

/-- `_first_non_null`: the first non-null value of a column, if any
(`series.dropna()` then the first element). -/
def first_non_null (col : Col) : Option String := (col.filterMap id).head?

/-- The value `enrich_df` broadcasts for one metadata column: `None` when
the column is absent from `df`, else its first non-null value. -/
def metaValue (df : DFm) (c : String) : Option String :=
  match assocLookup c df with
  | none => none
  | some col => first_non_null col

/-- `len(gen_df)`: the common length of the DataFrame's columns (pandas
keeps all columns the same length; `0` for an empty frame). -/
def dfRowCount (df : DFm) : Nat :=
  match df with
  | [] => 0
  | p :: _ => p.2.length

/-- Column assignment `df[c] = v`: replace the column in place when the
name exists, append it otherwise. -/
def dfSetCol : DFm → String → Col → DFm
  | [], k, v => [(k, v)]
  | (a, b) :: t, k, v => if a = k then (k, v) :: t else (a, b) :: dfSetCol t k v

/-- `helpers.enrich_df`: broadcast, for each of the six metadata fields,
the first non-null value found in `df` onto every row of `gen_df`
(a pandas scalar assignment fills the whole column). -/
def enrich_df (df gendf : DFm) : DFm :=
  meta_cols.foldl
    (fun acc c => dfSetCol acc c (List.replicate (dfRowCount gendf) (metaValue df c)))
    gendf

/-! ## Loader row preparation (`main.py` lines 398–403) -/

/-- A cell of the table read back from Excel: a string, an integer, or a
null.  (`df.replace` with a string regex only touches string cells.) -/
inductive DbCell where
  | str (s : String)
  | int (n : Int)
  | null
deriving DecidableEq

/-- The cell transformation of `df.replace(r'^\s*$', 'NULL', regex=True)`:
a string consisting only of whitespace (including the empty string) becomes
the literal `"NULL"`; every other cell is unchanged. -/
def prepCell : DbCell → DbCell
  | DbCell.str s => if s.data.all isPyWs then DbCell.str "NULL" else DbCell.str s
  | c => c

/-- The column renaming `item_id → item`, `page → page_number` of the two
`df.rename` calls. -/
def renameCol (c : String) : String :=
  if c = "item_id" then "item" else if c = "page" then "page_number" else c

/-- A table headed for the database. -/
abbrev DbDF := List (String × List DbCell)

def dbRowCount (df : DbDF) : Nat :=
  match df with
  | [] => 0
  | p :: _ => p.2.length

/-- The Loader's row preparation (`insert_results_to_db`, step 3): null
normalisation of every cell, then the two column renames. -/
def loader_prepare (df : DbDF) : DbDF :=
  (df.map (fun p => (p.1, p.2.map prepCell))).map (fun p => (renameCol p.1, p.2))

/-! ## Filesystem state, Splitter and Extractor persistence
(`helpers.py` lines 131–160, `main.py` lines 259–263)

Files are an association list from path to content.  The Splitter's page
contents are the single pages of the source document (pages are abstract
`Nat` identifiers); the Extractor's Excel content is likewise abstract. -/

/-- `fs[k] = v`: overwrite the entry in place, or append a new one. -/
def fsSet {β : Type} : List (String × β) → String → β → List (String × β)
  | [], k, v => [(k, v)]
  | (a, b) :: t, k, v => if a = k then (k, v) :: t else (a, b) :: fsSet t k v

/-- Deletion of a path (the source half of `shutil.move`). -/
def fsRemove {β : Type} (fs : List (String × β)) (k : String) : List (String × β) :=
  fs.filter (fun p => p.1 != k)

/-- A filesystem of PDF documents (a document is its list of pages). -/
abbrev PdfFS := List (String × List Nat)

inductive SplitErr where
  | fileNotFound
deriving DecidableEq

structure SplitOk where
  num_pages : Nat
  output_dir : String
  fs : PdfFS
deriving DecidableEq

def pageFileName (basename : String) (i : Nat) : String :=
  basename ++ "_page_" ++ toString i ++ ".pdf"

/-- `helpers.split_pdf_to_pages`: read the input document, write page `i`
(1-based) to `output_dir/<basename>_page_<i>.pdf` for every page, then move
the input to the archival path `/var/www/openai/uploads/source/<basename>.pdf`
and return `(num_pages, output_dir)` together with the new filesystem.
`PdfReader` on a missing file is the `fileNotFound` error.  The source
contains no check for pre-existing output files: every page write is an
unconditional `open(out_path, "wb")`. -/
def split_pdf_to_pages (fs : PdfFS) (input_pdf : String) (output_dir : String) :
    Except SplitErr SplitOk :=
  match assocLookup input_pdf fs with
  | none => Except.error SplitErr.fileNotFound
  | some pages =>
    let basename := pyStem (basenameOf input_pdf)
    let fs1 := pages.enum.foldl
      (fun acc p => fsSet acc (output_dir ++ "/" ++ pageFileName basename (p.1 + 1)) [p.2]) fs
    let fs2 := fsSet (fsRemove fs1 input_pdf)
      ("/var/www/openai/uploads/source/" ++ basename ++ ".pdf") pages
    Except.ok ⟨pages.length, output_dir, fs2⟩

/-- A filesystem of Excel artifacts (content abstract). -/
abbrev XlsxFS := List (String × Nat)

/-- The Extractor's output path `results/<original_stem>_page_<page>.xlsx`
(`main.py` lines 260–262; a `None` page renders as the text `None` in the
f-string). -/
def extract_output_path (original_stem : String) (page : Option String) : String :=
  "results/" ++ original_stem ++ "_page_" ++ (match page with | some p => p | none => "None") ++ ".xlsx"

/-- The Extractor's persistence step `df.to_excel(excel_path)`: an
unconditional write, with no existence check. -/
def persist_extract_output (fs : XlsxFS) (original_stem : String) (page : Option String)
    (content : Nat) : XlsxFS :=
  fsSet fs (extract_output_path original_stem page) content

/-! ## JSON recovery (`helpers.py` lines 321–355)

`json.loads` and `ast.literal_eval` are library collaborators; they are
embedded below as executable recursive-descent parsers over `List Char`.
The JSON parser follows the strict JSON grammar (full-input consumption,
no trailing commas, no leading zeros) restricted to integer numbers:
fraction/exponent forms and `\uXXXX` escapes are rejected, and `NaN` /
`Infinity` extensions are not modelled — none of these occur in any
payload this development evaluates.  The `ast.literal_eval` model accepts
the permissive forms the source comment relies on (single-quoted strings,
trailing commas), mapping Python lists/tuples and string-keyed dicts onto
the same value domain. -/

/-- The values recovered from model output: JSON values, with Python
literals (from `ast.literal_eval`) mapped onto the same domain. -/
inductive JValue where
  | jnull
  | jbool (b : Bool)
  | jnum (n : Int)
  | jstr (s : String)
  | jarr (elems : List JValue)
  | jobj (fields : List (String × JValue))

def dqChar : Char := Char.ofNat 34
def sqChar : Char := Char.ofNat 39
def btChar : Char := Char.ofNat 96
def lcbChar : Char := Char.ofNat 123
def rcbChar : Char := Char.ofNat 125

/-- JSON insignificant whitespace. -/
def isJsonWs (c : Char) : Bool := c == ' ' || c == '\t' || c == '\n' || c == '\r'

/-- The escape sequences accepted inside string literals (shared between
the JSON and Python-literal models; `\uXXXX` is not modelled). -/
def escChar (e : Char) : Option Char :=
  if e = dqChar then some dqChar
  else if e = sqChar then some sqChar
  else if e = '\\' then some '\\'
  else if e = '/' then some '/'
  else if e = 'n' then some '\n'
  else if e = 't' then some '\t'
  else if e = 'r' then some '\r'
  else if e = 'b' then some (Char.ofNat 8)
  else if e = 'f' then some (Char.ofNat 12)
  else none

/-- Body of a string literal, after the opening quote `q`: the decoded
characters and the input after the closing quote. -/
def parseStrBody (q : Char) : List Char → Option (List Char × List Char)
  | [] => none
  | c :: cs =>
    if c = q then some ([], cs)
    else if c = '\\' then
      match cs with
      | [] => none
      | e :: cs2 =>
        match escChar e with
        | none => none
        | some ec =>
          match parseStrBody q cs2 with
          | none => none
          | some (acc, rest) => some (ec :: acc, rest)
    else
      match parseStrBody q cs with
      | none => none
      | some (acc, rest) => some (c :: acc, rest)

/-- Numeric value of a digit run. -/
def digitsVal (ds : List Char) : Nat :=
  ds.foldl (fun a c => a * 10 + (c.toNat - 48)) 0

/-- A JSON natural: `0`, or a nonzero digit followed by digits (leading
zeros rejected, as `json.loads` stops after a lone `0`). -/
def parseJNat (cs : List Char) : Option (Nat × List Char) :=
  match cs with
  | [] => none
  | c :: rest =>
    if c = '0' then some (0, rest)
    else if c.isDigit then
      some (digitsVal (c :: rest.takeWhile Char.isDigit), rest.dropWhile Char.isDigit)
    else none

/-- A JSON integer with optional minus sign. -/
def parseJNum (cs : List Char) : Option (Int × List Char) :=
  match cs with
  | '-' :: rest =>
    match parseJNat rest with
    | some (n, r) => some (-(n : Int), r)
    | none => none
  | _ =>
    match parseJNat cs with
    | some (n, r) => some ((n : Int), r)
    | none => none

mutual

/-- One JSON value (fuelled recursive descent; the fuel passed by
`jsonParse` always suffices, since every recursive call consumes input). -/
def parseJVal : Nat → List Char → Option (JValue × List Char)
  | 0, _ => none
  | fuel + 1, cs0 =>
    match cs0.dropWhile isJsonWs with
    | [] => none
    | c :: rest =>
      if c = dqChar then
        match parseStrBody dqChar rest with
        | some (sChars, r) => some (JValue.jstr (String.mk sChars), r)
        | none => none
      else if c = lcbChar then
        match rest.dropWhile isJsonWs with
        | c2 :: r2 =>
          if c2 = rcbChar then some (JValue.jobj [], r2)
          else
            match parseJMembers fuel rest with
            | some (ms, r3) => some (JValue.jobj ms, r3)
            | none => none
        | [] => none
      else if c = '[' then
        match rest.dropWhile isJsonWs with
        | c2 :: r2 =>
          if c2 = ']' then some (JValue.jarr [], r2)
          else
            match parseJItems fuel rest with
            | some (vs, r3) => some (JValue.jarr vs, r3)
            | none => none
        | [] => none
      else if c = 't' then
        if rest.take 3 = ['r', 'u', 'e'] then some (JValue.jbool true, rest.drop 3) else none
      else if c = 'f' then
        if rest.take 4 = ['a', 'l', 's', 'e'] then some (JValue.jbool false, rest.drop 4) else none
      else if c = 'n' then
        if rest.take 3 = ['u', 'l', 'l'] then some (JValue.jnull, rest.drop 3) else none
      else
        match parseJNum (c :: rest) with
        | some (n, r) => some (JValue.jnum n, r)
        | none => none

/-- The comma-separated elements of a non-empty JSON array, up to `]`. -/
def parseJItems : Nat → List Char → Option (List JValue × List Char)
  | 0, _ => none
  | fuel + 1, cs =>
    match parseJVal fuel cs with
    | none => none
    | some (v, r) =>
      match r.dropWhile isJsonWs with
      | ',' :: r2 =>
        match parseJItems fuel r2 with
        | some (vs, r3) => some (v :: vs, r3)
        | none => none
      | c2 :: r2 => if c2 = ']' then some ([v], r2) else none
      | [] => none

/-- The members of a non-empty JSON object, up to the closing brace. -/
def parseJMembers : Nat → List Char → Option (List (String × JValue) × List Char)
  | 0, _ => none
  | fuel + 1, cs =>
    match cs.dropWhile isJsonWs with
    | [] => none
    | c :: rest =>
      if c = dqChar then
        match parseStrBody dqChar rest with
        | none => none
        | some (kChars, r) =>
          match r.dropWhile isJsonWs with
          | ':' :: r2 =>
            match parseJVal fuel r2 with
            | none => none
            | some (v, r3) =>
              match r3.dropWhile isJsonWs with
              | ',' :: r4 =>
                match parseJMembers fuel r4 with
                | some (ms, r5) => some ((String.mk kChars, v) :: ms, r5)
                | none => none
              | c2 :: r4 =>
                if c2 = rcbChar then some ([(String.mk kChars, v)], r4) else none
              | [] => none
          | _ => none
      else none

end

/-- `json.loads`: parse one JSON value and require that only whitespace
remains (otherwise Python raises `Extra data`). -/
def jsonParse (s : String) : Option JValue :=
  let cs := s.data
  match parseJVal (3 * cs.length + 9) cs with
  | some (v, rest) => if rest.dropWhile isJsonWs = [] then some v else none
  | none => none

mutual

/-- One Python literal (`ast.literal_eval` model, fuelled): strings in
either quote style, integers with an optional sign, `True`/`False`/`None`,
and lists/tuples/dicts with trailing commas allowed.  Sets, floats,
complex numbers and non-string dict keys are not modelled; no input
evaluated in this development reaches this parser with such content. -/
def parsePyVal : Nat → List Char → Option (JValue × List Char)
  | 0, _ => none
  | fuel + 1, cs0 =>
    match cs0.dropWhile isPyWs with
    | [] => none
    | c :: rest =>
      if c = dqChar || c = sqChar then
        match parseStrBody c rest with
        | some (sChars, r) => some (JValue.jstr (String.mk sChars), r)
        | none => none
      else if c = lcbChar then
        match parsePyMembers fuel rest with
        | some (ms, r) => some (JValue.jobj ms, r)
        | none => none
      else if c = '[' then
        match parsePyItems ']' fuel rest with
        | some (vs, r) => some (JValue.jarr vs, r)
        | none => none
      else if c = '(' then
        match parsePyItems ')' fuel rest with
        | some (vs, r) => some (JValue.jarr vs, r)
        | none => none
      else if c = 'T' then
        if rest.take 3 = ['r', 'u', 'e'] then some (JValue.jbool true, rest.drop 3) else none
      else if c = 'F' then
        if rest.take 4 = ['a', 'l', 's', 'e'] then some (JValue.jbool false, rest.drop 4) else none
      else if c = 'N' then
        if rest.take 3 = ['o', 'n', 'e'] then some (JValue.jnull, rest.drop 3) else none
      else if c = '-' then
        match parseJNat rest with
        | some (n, r) => some (JValue.jnum (-(n : Int)), r)
        | none => none
      else if c = '+' then
        match parseJNat rest with
        | some (n, r) => some (JValue.jnum (n : Int), r)
        | none => none
      else
        match parseJNat (c :: rest) with
        | some (n, r) => some (JValue.jnum (n : Int), r)
        | none => none

/-- Comma-separated Python literals up to `close`; a trailing comma or
an immediately closing bracket is accepted. -/
def parsePyItems (close : Char) : Nat → List Char → Option (List JValue × List Char)
  | 0, _ => none
  | fuel + 1, cs0 =>
    match cs0.dropWhile isPyWs with
    | [] => none
    | c :: rest =>
      if c = close then some ([], rest)
      else
        match parsePyVal fuel (c :: rest) with
        | none => none
        | some (v, r) =>
          match r.dropWhile isPyWs with
          | ',' :: r2 =>
            match parsePyItems close fuel r2 with
            | some (vs, r3) => some (v :: vs, r3)
            | none => none
          | c2 :: r2 => if c2 = close then some ([v], r2) else none
          | [] => none

/-- String-keyed Python dict members up to `}` (trailing comma allowed). -/
def parsePyMembers : Nat → List Char → Option (List (String × JValue) × List Char)
  | 0, _ => none
  | fuel + 1, cs0 =>
    match cs0.dropWhile isPyWs with
    | [] => none
    | c :: rest =>
      if c = rcbChar then some ([], rest)
      else if c = dqChar || c = sqChar then
        match parseStrBody c rest with
        | none => none
        | some (kChars, r) =>
          match r.dropWhile isPyWs with
          | ':' :: r2 =>
            match parsePyVal fuel r2 with
            | none => none
            | some (v, r3) =>
              match r3.dropWhile isPyWs with
              | ',' :: r4 =>
                match parsePyMembers fuel r4 with
                | some (ms, r5) => some ((String.mk kChars, v) :: ms, r5)
                | none => none
              | c2 :: r4 =>
                if c2 = rcbChar then some ([(String.mk kChars, v)], r4) else none
              | [] => none
          | _ => none
      else none

end

/-- `ast.literal_eval`: parse one Python literal, allowing surrounding
whitespace and requiring full consumption. -/
def pyLiteralEval (s : String) : Option JValue :=
  let cs := s.data
  match parsePyVal (3 * cs.length + 9) cs with
  | some (v, rest) => if rest.dropWhile isPyWs = [] then some v else none
  | none => none

/-- Content up to (and input after) the first closing triple-backtick
fence, if one exists. -/
def findClose : List Char → Option (List Char × List Char)
  | [] => none
  | c :: cs =>
    if c = btChar ∧ cs.take 2 = [btChar, btChar] then some ([], cs.drop 2)
    else
      match findClose cs with
      | none => none
      | some (a, r) => some (c :: a, r)

/-- The group-2 content of the first match of the regex
search for three backticks, an optional `json` tag, an optional newline,
then a lazy body up to the next three backticks (DOTALL).  The engine
takes the leftmost start position from which a closing fence exists; the
greedy optional `json`/newline parts never affect whether the closing
fence exists, only where the captured body starts, so they are consumed
unconditionally when present. -/
def fencedSearch : List Char → Option (List Char)
  | [] => none
  | c :: cs =>
    if c = btChar ∧ cs.take 2 = [btChar, btChar] then
      let rest := cs.drop 2
      let rest1 := if rest.take 4 = ['j', 's', 'o', 'n'] then rest.drop 4 else rest
      let rest2 := match rest1 with
        | '\n' :: t => t
        | _ => rest1
      match findClose rest2 with
      | some (content, _) => some content
      | none => fencedSearch cs
    else fencedSearch cs

/-- First index of any of `targets` in `cs` (the minimum of the `find`
results in the source). -/
def idxFirstOf (cs : List Char) (targets : List Char) : Option Nat :=
  cs.findIdx? (fun c => targets.contains c)

/-- Last index of any of `targets` in `cs` (the maximum of the `rfind`
results in the source). -/
def idxLastOf (cs : List Char) (targets : List Char) : Option Nat :=
  match cs.reverse.findIdx? (fun c => targets.contains c) with
  | none => none
  | some j => some (cs.length - 1 - j)

/-- The bracket-scan substring `json_str[start : end + 1]` from the
earliest `{`/`[` to the latest `}`/`]` (`None` when either side is
absent; an inverted range yields the empty slice, as in Python). -/
def bracketCandidate (s : String) : Option String :=
  let cs := s.data
  match idxFirstOf cs [lcbChar, '['], idxLastOf cs [rcbChar, ']'] with
  | some st, some en => some (String.mk ((cs.drop st).take (en + 1 - st)))
  | _, _ => none

/-- The tail of `_extract_json_from_text` operating on the selected
`json_str`: strict parse, then strict parse of the bracket-scan substring,
then `ast.literal_eval` of that substring. -/
def recoverJsonFrom (json_str : String) : Option JValue :=
  match jsonParse json_str with
  | some v => some v
  | none =>
    match bracketCandidate json_str with
    | none => none
    | some cand =>
      match jsonParse cand with
      | some v => some v
      | none => pyLiteralEval cand

/-- `helpers._extract_json_from_text`: select the first fenced block's
content when one exists (the full response otherwise), strip it, and run
the strict/bracket-scan/permissive recovery on that selection.  An empty
response is `None` immediately. -/
def _extract_json_from_text (text : String) : Option JValue :=
  if text = "" then none
  else
    match fencedSearch text.data with
    | some content => recoverJsonFrom (pyStrip (String.mk content))
    | none => recoverJsonFrom (pyStrip text)

/-- Modelled from the spec's words (claim C2, the chain as stated): step
(a) parses the first fenced block's content; step (b), on failure, parses
the full trimmed response; steps (c) and (d) run the strict and then the
permissive parse on the bracket-scan substring of the trimmed response. -/
def chainSpecOrig (text : String) : Option JValue :=
  (match fencedSearch text.data with
   | some content => jsonParse (pyStrip (String.mk content))
   | none => none) <|>
  jsonParse (pyStrip text) <|>
  (match bracketCandidate (pyStrip text) with
   | some cand => jsonParse cand
   | none => none) <|>
  (match bracketCandidate (pyStrip text) with
   | some cand => pyLiteralEval cand
   | none => none)

/-- Modelled from the spec as amended (claim C2): the same ordered
fallback chain, except that when a fenced block is present every
subsequent step operates on the block's trimmed content — the full
response is parsed only when no fenced block exists — and a non-empty
response is required. -/
def chainAmended (text : String) : Option JValue :=
  if text = "" then none
  else
    let base :=
      match fencedSearch text.data with
      | some content => pyStrip (String.mk content)
      | none => pyStrip text
    jsonParse base <|>
      (bracketCandidate base).bind (fun cand => jsonParse cand <|> pyLiteralEval cand)

/-! ## HTML table parsing (`helpers.py` lines 212–231)

BeautifulSoup with the `html.parser` builder is a library collaborator.
It is embedded as a tokenizer plus a stack-style tree builder faithful to
its behaviour on well-formed markup: tag names are lowercased, attributes
are skipped, unmatched close tags are dropped, unclosed elements are
closed at the end of input.  Comments, doctypes, entity references, void
elements and error recovery on malformed markup are not modelled; no
input evaluated in this development uses them. -/

/-- A parsed HTML node. -/
inductive HNode where
  | elem (tag : String) (children : List HNode)
  | text (s : String)

/-- A lexical HTML token. -/
inductive HTok where
  | tagOpen (t : String)
  | tagClose (t : String)
  | txt (s : String)

/-- Read one tag after `<`: optional `/`, a name, anything up to `>`.
Returns the lowercased name, whether it closes, and the remaining input;
`none` when no well-formed tag starts here. -/
def readTag (cs : List Char) : Option (String × Bool × List Char) :=
  let (isClose, cs1) :=
    match cs with
    | '/' :: r => (true, r)
    | _ => (false, cs)
  let nameCs := cs1.takeWhile (fun c => c.isAlphanum)
  let afterName := cs1.dropWhile (fun c => c.isAlphanum)
  match afterName.dropWhile (fun c => c != '>') with
  | '>' :: r => if nameCs.isEmpty then none else some (strLower (String.mk nameCs), isClose, r)
  | _ => none

/-- Prepend a character to the token stream as text, merging with a
leading text token (contiguous character data forms one token). -/
def mergeText (c : Char) (toks : List HTok) : List HTok :=
  match toks with
  | HTok.txt s :: ts => HTok.txt (String.mk (c :: s.data)) :: ts
  | _ => HTok.txt (String.mk [c]) :: toks

/-- Fuelled HTML tokenizer (`fuel` one more than the input length always
suffices: every step consumes at least one character). -/
def tokenizeHtmlAux : Nat → List Char → List HTok
  | 0, _ => []
  | _ + 1, [] => []
  | fuel + 1, c :: cs =>
    if c = '<' then
      match readTag cs with
      | some (t, isClose, rest) =>
        (if isClose then HTok.tagClose t else HTok.tagOpen t) :: tokenizeHtmlAux fuel rest
      | none => mergeText c (tokenizeHtmlAux fuel cs)
    else mergeText c (tokenizeHtmlAux fuel cs)

/-- Parse sibling nodes until an unmatched close tag or the end of input;
an open tag recursively collects its children and consumes its matching
close tag when present. -/
def buildNodes : Nat → List HTok → List HNode × List HTok
  | 0, ts => ([], ts)
  | _ + 1, [] => ([], [])
  | fuel + 1, HTok.txt s :: ts =>
    let (ns, rest) := buildNodes fuel ts
    (HNode.text s :: ns, rest)
  | _ + 1, HTok.tagClose t :: ts => ([], HTok.tagClose t :: ts)
  | fuel + 1, HTok.tagOpen t :: ts =>
    let (kids, rest) := buildNodes fuel ts
    let rest2 :=
      match rest with
      | HTok.tagClose t2 :: more => if t2 = t then more else HTok.tagClose t2 :: more
      | _ => rest
    let (ns, rest3) := buildNodes fuel rest2
    (HNode.elem t kids :: ns, rest3)

/-- Top-level tree construction: stray close tags are dropped. -/
def buildTop : Nat → List HTok → List HNode
  | 0, _ => []
  | fuel + 1, toks =>
    match buildNodes (fuel + 1) toks with
    | (ns, []) => ns
    | (ns, _ :: rest) => ns ++ buildTop fuel rest

/-- `BeautifulSoup(html, "html.parser")`: the parsed node forest. -/
def parseHtmlNodes (s : String) : List HNode :=
  let toks := tokenizeHtmlAux (s.data.length + 1) s.data
  buildTop (2 * toks.length + 2) toks

/-- `soup.find(tag)` over a forest: the first element named `tag` in
document order, descending into children before siblings (fuelled; the
fuel passed by `html_table_to_tuples` always suffices for trees built
from its input). -/
def findTagIn (tag : String) : Nat → List HNode → Option HNode
  | 0, _ => none
  | _ + 1, [] => none
  | fuel + 1, HNode.text _ :: rest => findTagIn tag fuel rest
  | fuel + 1, HNode.elem t kids :: rest =>
    if t = tag then some (HNode.elem t kids)
    else
      match findTagIn tag fuel kids with
      | some r => some r
      | none => findTagIn tag fuel rest

/-- `tag.find_all(tags)` over a forest: all elements whose name is in
`tags`, together with those of their descendants, in document order
(fuelled). -/
def descTagsIn (tags : List String) : Nat → List HNode → List HNode
  | 0, _ => []
  | _ + 1, [] => []
  | fuel + 1, HNode.text _ :: rest => descTagsIn tags fuel rest
  | fuel + 1, HNode.elem t kids :: rest =>
    (if tags.contains t then [HNode.elem t kids] else []) ++
      descTagsIn tags fuel kids ++ descTagsIn tags fuel rest

/-- The character-data strings of a forest, in document order (fuelled). -/
def textsIn : Nat → List HNode → List String
  | 0, _ => []
  | _ + 1, [] => []
  | fuel + 1, HNode.text s :: rest => s :: textsIn fuel rest
  | fuel + 1, HNode.elem _ kids :: rest => textsIn fuel kids ++ textsIn fuel rest

/-- `cell.get_text(strip=True)`: the concatenation of the stripped
character data of all descendants. -/
def getTextStrip (fuel : Nat) (n : HNode) : String :=
  String.join ((textsIn fuel [n]).map pyStrip)

/-- Python `repr` of a string (as used by `str()` on a list of tuples):
single quotes unless the string contains one and no double quote; the
quote character, backslashes and control characters are escaped.
Non-printable characters beyond tab/newline/return are not modelled. -/
def pyReprStrChar (q : Char) (c : Char) : List Char :=
  if c = '\\' then ['\\', '\\']
  else if c = q then ['\\', q]
  else if c = '\n' then ['\\', 'n']
  else if c = '\r' then ['\\', 'r']
  else if c = '\t' then ['\\', 't']
  else [c]

def pyReprStr (s : String) : String :=
  let q := if s.data.contains sqChar ∧ ¬ s.data.contains dqChar then dqChar else sqChar
  String.mk ((q :: ((s.data.map (pyReprStrChar q)).flatten)) ++ [q])

/-- Python `repr` of a tuple of strings (note the trailing comma of a
one-element tuple). -/
def pyReprTuple (cells : List String) : String :=
  match cells with
  | [] => "()"
  | [x] => "(" ++ pyReprStr x ++ ",)"
  | xs => "(" ++ String.intercalate ", " (xs.map pyReprStr) ++ ")"

/-- Python `str` of a list of tuples of strings. -/
def pyReprTupleList (rows : List (List String)) : String :=
  "[" ++ String.intercalate ", " (rows.map pyReprTuple) ++ "]"

/-- A value held in the `clean_text` cell of the Extractor's DataFrame:
`None`, a string, or the empty Python list that `html_table_to_tuples`
returns when the markup holds no table. -/
inductive PyCell where
  | null
  | str (s : String)
  | emptyList
deriving DecidableEq

/-- `helpers.html_table_to_tuples`: the empty list when no `<table>` is
found; otherwise the Python string representation of the list of row
tuples (one tuple per descendant `<tr>`, one stripped text per `<th>` or
`<td>`). -/
def html_table_to_tuples (html : String) : PyCell :=
  let fuel := 2 * html.data.length + 4
  match findTagIn "table" fuel (parseHtmlNodes html) with
  | none => PyCell.emptyList
  | some tbl =>
    PyCell.str (pyReprTupleList
      ((descTagsIn ["tr"] fuel [tbl]).map
        (fun tr => (descTagsIn ["th", "td"] fuel [tr]).map (getTextStrip fuel))))

/-! ## Extractor row building (`main.py` lines 189–263) -/

/-- The per-page metadata carried onto every row: the derived original
file name, its public URL, and the page number string (null when the
filename carries no page suffix). -/
structure PageMeta where
  name_file : String
  url_file : String
  page : Option String
deriving DecidableEq

/-- One chunk as returned by the extraction service: its id, its
`chunk_type` string (the enum's `.value`, or `str()` of whatever the
service returned), its text, and how many groundings it carries (`0`
covers both a missing and an empty `grounding` attribute, which the
source treats alike via truthiness). -/
structure Chunk where
  chunk_id : Option String
  chunk_type : String
  text : String
  groundingCount : Nat
deriving DecidableEq

/-- One record of the Extractor's DataFrame before text cleaning. -/
structure Row where
  chunk_id : Option String
  chunk : Nat
  chunk_type : String
  text_html : String
  name_file : String
  url_file : String
  page : Option String
deriving DecidableEq

/-- The record dict appended for a chunk at 1-based position `idx`. -/
def mkRow (meta : PageMeta) (idx : Nat) (c : Chunk) : Row :=
  { chunk_id := c.chunk_id, chunk := idx, chunk_type := c.chunk_type, text_html := c.text,
    name_file := meta.name_file, url_file := meta.url_file, page := meta.page }

/-- The rows appended for one chunk: one per grounding when any exist,
exactly one otherwise. -/
def rowsOfChunk (meta : PageMeta) (idx : Nat) (c : Chunk) : List Row :=
  List.replicate (if c.groundingCount = 0 then 1 else c.groundingCount) (mkRow meta idx c)

/-- The inner `for i, chunk in enumerate(r.chunks)` loop, with `k` the
number of chunks already enumerated. -/
def recordsFrom (meta : PageMeta) (k : Nat) : List Chunk → List Row
  | [] => []
  | c :: cs => rowsOfChunk meta (k + 1) c ++ recordsFrom meta (k + 1) cs

/-- The full `records` list over the parse results (the enumeration
restarts at each result, as in the source). -/
def buildRecords (meta : PageMeta) (chunkLists : List (List Chunk)) : List Row :=
  (chunkLists.map (recordsFrom meta 0)).flatten

/-- A record together with its derived `clean_text` cell. -/
structure RowC extends Row where
  clean_text : PyCell
deriving DecidableEq

/-- `helpers.parse_table_replace`: the parsed table for rows whose
`chunk_type` is exactly `"table"`, `None` otherwise. -/
def parse_table_replace (r : Row) : PyCell :=
  if r.chunk_type = "table" then html_table_to_tuples r.text_html else PyCell.null

/-- The `clean_text` computation of `/extract` (`main.py` lines 252–257):
apply `parse_table_replace` to every row, then fill the rows whose
lowercased `chunk_type` differs from `"table"` and whose `clean_text` is
null with the raw `text_html`. -/
def addCleanText (rows : List Row) : List RowC :=
  rows.map (fun r =>
    let ct := parse_table_replace r
    let ct := if strLower r.chunk_type ≠ "table" ∧ ct = PyCell.null then PyCell.str r.text_html else ct
    { toRow := r, clean_text := ct })

/-- The emitted rows of the Extractor for one invocation. -/
def extractRows (meta : PageMeta) (chunkLists : List (List Chunk)) : List RowC :=
  addCleanText (buildRecords meta chunkLists)

/-- The metadata derivation of `/extract` (`main.py` lines 189–207):
`extract_original_pdf_name` (its `ValueError` aborts the request, giving
`none` here), the public link, and `extract_page_number`. -/
def extractMeta (filename : String) : Option PageMeta :=
  match extract_original_pdf_name filename with
  | Except.error _ => none
  | Except.ok original =>
    some { name_file := original,
           url_file := "https://openia.soft-box.com.mx/files/" ++ original,
           page := extract_page_number filename }

/-- Modelled from the claim's premise (C10): the filename ends
(case-insensitively) in `_page_`, a non-empty digit run, and `.pdf`. -/
def hasPageSuffixCI (fn : String) : Bool :=
  strEndsWithCI fn ".pdf" &&
    (let core := fn.data.take (fn.data.length - 4)
     let ds := trailingDigits core
     !ds.isEmpty && strEndsWithCI (String.mk (core.take (core.length - ds.length))) "_page_")

/-! ## Helper lemmas -/

theorem assocLookup_map_snd {β γ : Type} (g : β → γ) (k : String) :
    ∀ l : List (String × β),
      assocLookup k (l.map (fun p => (p.1, g p.2))) = (assocLookup k l).map g
  | [] => rfl
  | (a, b) :: t => by
    by_cases h : a = k <;> simp [assocLookup, h, assocLookup_map_snd g k t]

theorem balanceOne_length {α : Type} [DecidableEq α] (t : Nat) (pv : α) (l : List α) :
    (balanceOne t pv l).length = t := by
  unfold balanceOne
  split_ifs with h1 h2
  · simp; omega
  · simp; omega
  · omega

theorem balanceOne_of_length_eq {α : Type} [DecidableEq α] {t : Nat} (pv : α) {l : List α}
    (h : l.length = t) : balanceOne t pv l = l := by
  unfold balanceOne
  split_ifs with h1 h2
  · omega
  · omega
  · rfl

theorem assocLookup_fsSet_self {β : Type} (k : String) (v : β) :
    ∀ fs : List (String × β), assocLookup k (fsSet fs k v) = some v
  | [] => by simp [fsSet, assocLookup]
  | (a, b) :: t => by
    by_cases h : a = k <;> simp [fsSet, assocLookup, h, assocLookup_fsSet_self k v t]

theorem assocLookup_dfSetCol_self (k : String) (v : Col) :
    ∀ df : DFm, assocLookup k (dfSetCol df k v) = some v
  | [] => by simp [dfSetCol, assocLookup]
  | (a, b) :: t => by
    by_cases h : a = k <;> simp [dfSetCol, assocLookup, h, assocLookup_dfSetCol_self k v t]

theorem assocLookup_dfSetCol_ne {k k' : String} (v : Col) (hne : k' ≠ k) :
    ∀ df : DFm, assocLookup k (dfSetCol df k' v) = assocLookup k df
  | [] => by simp [dfSetCol, assocLookup, hne]
  | (a, b) :: t => by
    by_cases h : a = k' <;> by_cases h2 : a = k <;>
      simp_all [dfSetCol, assocLookup, assocLookup_dfSetCol_ne v hne t]

theorem assocLookup_foldl_dfSetCol_notmem (f : String → Col) {c : String} :
    ∀ (cols : List String) (df : DFm), c ∉ cols →
      assocLookup c (cols.foldl (fun acc k => dfSetCol acc k (f k)) df) = assocLookup c df
  | [], df, _ => rfl
  | k :: rest, df, hmem => by
    have hk : k ≠ c := fun h => hmem (by simp [h])
    have hrest : c ∉ rest := fun h => hmem (by simp [h])
    simp only [List.foldl_cons]
    rw [assocLookup_foldl_dfSetCol_notmem f rest _ hrest, assocLookup_dfSetCol_ne _ hk]

theorem assocLookup_foldl_dfSetCol_mem (f : String → Col) {c : String} :
    ∀ (cols : List String) (df : DFm), c ∈ cols → cols.Nodup →
      assocLookup c (cols.foldl (fun acc k => dfSetCol acc k (f k)) df) = some (f c)
  | [], df, hmem, _ => absurd hmem (List.not_mem_nil c)
  | k :: rest, df, hmem, hnd => by
    simp only [List.foldl_cons]
    by_cases h : c = k
    · subst h
      have : c ∉ rest := (List.nodup_cons.mp hnd).1
      rw [assocLookup_foldl_dfSetCol_notmem f rest _ this, assocLookup_dfSetCol_self]
    · have : c ∈ rest := by
        rcases List.mem_cons.mp hmem with h' | h'
        · exact absurd h' h
        · exact h'
      exact assocLookup_foldl_dfSetCol_mem f rest _ this (List.nodup_cons.mp hnd).2

theorem mem_recordsFrom {meta : PageMeta} {r : Row} :
    ∀ {cs : List Chunk} {k : Nat}, r ∈ recordsFrom meta k cs →
      ∃ j, ∃ h : j < cs.length, r = mkRow meta (k + j + 1) (cs.get ⟨j, h⟩)
  | [], k, h => absurd h (List.not_mem_nil r)
  | c :: cs, k, h => by
    rcases List.mem_append.mp h with h1 | h1
    · exact ⟨0, by simp, by rcases List.eq_of_mem_replicate h1 with rfl; rfl⟩
    · rcases mem_recordsFrom h1 with ⟨j, hj, heq⟩
      exact ⟨j + 1, by simpa using hj, by simpa [Nat.add_assoc, Nat.add_comm 1 j] using heq⟩

theorem filter_replicate_of (p : α → Bool) (a : α) :
    ∀ n : Nat, (List.replicate n a).filter p = if p a then List.replicate n a else []
  | 0 => by simp
  | n + 1 => by
    by_cases h : p a <;> simp [List.replicate_succ, List.filter_cons, h, filter_replicate_of p a n]

theorem html_table_to_tuples_ne_null (s : String) : html_table_to_tuples s ≠ PyCell.null := by
  unfold html_table_to_tuples
  dsimp only
  cases findTagIn "table" (2 * s.data.length + 4) (parseHtmlNodes s) <;> simp

theorem chunk_of_mem_recordsFrom {meta : PageMeta} {r : Row} {cs : List Chunk} {k : Nat}
    (h : r ∈ recordsFrom meta k cs) : k + 1 ≤ r.chunk ∧ r.chunk ≤ k + cs.length := by
  rcases mem_recordsFrom h with ⟨j, hj, rfl⟩
  constructor
  · simp [mkRow]
  · simp [mkRow]; omega

theorem filter_recordsFrom (meta : PageMeta) :
    ∀ (cs : List Chunk) (k i : Nat) (h : i < cs.length),
      (recordsFrom meta k cs).filter (fun r => r.chunk == k + i + 1) =
        rowsOfChunk meta (k + i + 1) (cs.get ⟨i, h⟩)
  | [], _, i, h => absurd h (by simp)
  | c :: cs, k, 0, h => by
    simp only [recordsFrom, List.filter_append]
    have h1 : (rowsOfChunk meta (k + 1) c).filter (fun r => r.chunk == k + 0 + 1) =
        rowsOfChunk meta (k + 0 + 1) ((c :: cs).get ⟨0, h⟩) := by
      simp only [rowsOfChunk, filter_replicate_of]
      simp [mkRow]
    have h2 : (recordsFrom meta (k + 1) cs).filter (fun r => r.chunk == k + 0 + 1) = [] := by
      apply List.filter_eq_nil_iff.mpr
      intro r hr
      have := (chunk_of_mem_recordsFrom hr).1
      simp only [beq_iff_eq]
      omega
    rw [h1, h2, List.append_nil]
  | c :: cs, k, i + 1, h => by
    simp only [recordsFrom, List.filter_append]
    have h1 : (rowsOfChunk meta (k + 1) c).filter (fun r => r.chunk == k + (i + 1) + 1) = [] := by
      simp only [rowsOfChunk, filter_replicate_of]
      simp [mkRow]
    have h2 := filter_recordsFrom meta cs (k + 1) i (by simpa using h)
    rw [h1, List.nil_append]
    have harith : k + 1 + i + 1 = k + (i + 1) + 1 := by omega
    rw [harith] at h2
    rw [h2]
    rfl

theorem takeWhile_eq_self_of_all {α : Type} (p : α → Bool) :
    ∀ l : List α, (∀ a ∈ l, p a = true) → l.takeWhile p = l
  | [], _ => rfl
  | a :: t, h => by
    have ha := h a (by simp)
    simp [List.takeWhile_cons, ha, takeWhile_eq_self_of_all p t (fun x hx => h x (by simp [hx]))]

theorem basenameOf_of_no_slash {fn : String} (h : fn.data.contains '/' = false) :
    basenameOf fn = fn := by
  have hall : ∀ c ∈ fn.data.reverse, (c != '/') = true := by
    intro c hc
    have hcm : c ∈ fn.data := List.mem_reverse.mp hc
    have hnm : ¬ ('/' ∈ fn.data) := by simpa using h
    have : ¬ c = '/' := fun he => hnm (he ▸ hcm)
    simpa [bne] using this
  unfold basenameOf
  rw [takeWhile_eq_self_of_all _ _ hall, List.reverse_reverse]

theorem strEndsWith_imp_CI {s t : String} (h : strEndsWith s t = true) :
    strEndsWithCI s t = true := by
  unfold strEndsWithCI strEndsWith strLower
  unfold strEndsWith at h
  rw [List.isSuffixOf_iff_suffix] at h ⊢
  exact h.map Char.toLower

theorem ne_empty_of_endsCI_pdf {fn : String} (h : strEndsWithCI fn ".pdf" = true) :
    fn ≠ "" := by
  intro he
  subst he
  simp [strEndsWithCI, strEndsWith, strLower, List.isSuffixOf] at h

/-- Claim C1: for every dictionary of lists containing the key `item_id`,
`balance_lists_by_item_id` succeeds and returns a dictionary with the same
keys in which every list has length `len(data["item_id"])`: a list already
of that length is unchanged, a longer list is truncated to its first
`target_len` elements, and a shorter list is padded at the end — with the
placeholder `""` when it was empty, with its constant element when all its
elements are equal, and with `""` otherwise; and the three concrete
examples of the spec evaluate as stated. -/
theorem C1_balance_lists_spec :
    (∀ (data : List (String × List String)) (pv : String) (ids : List String),
      assocLookup "item_id" data = some ids →
      (balance_lists_by_item_id data pv).isSome = true ∧
      ∀ out, balance_lists_by_item_id data pv = some out →
        out.length = data.length ∧
        ∀ j (hj : j < data.length) (hj' : j < out.length),
          (out.get ⟨j, hj'⟩).1 = (data.get ⟨j, hj⟩).1 ∧
          (out.get ⟨j, hj'⟩).2.length = ids.length ∧
          ((data.get ⟨j, hj⟩).2.length = ids.length →
            (out.get ⟨j, hj'⟩).2 = (data.get ⟨j, hj⟩).2) ∧
          (ids.length < (data.get ⟨j, hj⟩).2.length →
            (out.get ⟨j, hj'⟩).2 = (data.get ⟨j, hj⟩).2.take ids.length) ∧
          ((data.get ⟨j, hj⟩).2.length < ids.length →
            ((data.get ⟨j, hj⟩).2 = [] →
              (out.get ⟨j, hj'⟩).2 = List.replicate ids.length pv) ∧
            (∀ a as, (data.get ⟨j, hj⟩).2 = a :: as →
              ((∀ x ∈ as, x = a) →
                (out.get ⟨j, hj'⟩).2 =
                  (a :: as) ++ List.replicate (ids.length - (a :: as).length) a) ∧
              ((∃ x ∈ as, x ≠ a) →
                (out.get ⟨j, hj'⟩).2 =
                  (a :: as) ++ List.replicate (ids.length - (a :: as).length) pv)))) ∧
    (balance_lists_by_item_id [("item_id", ["a", "b", "c"]), ("x", ["v"])] "" =
      some [("item_id", ["a", "b", "c"]), ("x", ["v", "v", "v"])]) ∧
    (balance_lists_by_item_id [("item_id", ["a", "b"]), ("x", ([] : List String))] "" =
      some [("item_id", ["a", "b"]), ("x", ["", ""])]) ∧
    (balance_lists_by_item_id [("item_id", ["a"]), ("x", ["v1", "v2", "v3"])] "" =
      some [("item_id", ["a"]), ("x", ["v1"])]) := by
  refine ⟨?_, rfl, rfl, rfl⟩
  intro data pv ids h
  have hb : balance_lists_by_item_id data pv =
      some (data.map (fun p => (p.1, balanceOne ids.length pv p.2))) := by
    unfold balance_lists_by_item_id
    rw [h]
  refine ⟨by rw [hb]; rfl, ?_⟩
  intro out hout
  rw [hb] at hout
  injection hout with hout
  subst hout
  refine ⟨by simp, ?_⟩
  intro j hj hj'
  have hget : (data.map (fun p => (p.1, balanceOne ids.length pv p.2))).get ⟨j, hj'⟩ =
      (fun p : String × List String => (p.1, balanceOne ids.length pv p.2)) (data.get ⟨j, hj⟩) :=
    List.get_map _
  rw [hget]
  dsimp only
  set l := (data.get ⟨j, hj⟩).2 with hl
  refine ⟨rfl, balanceOne_length _ _ _, ?_, ?_, ?_⟩
  · intro hlen
    exact balanceOne_of_length_eq pv hlen
  · intro hlen
    unfold balanceOne
    rw [if_neg (by omega), if_pos hlen]
  · intro hlen
    constructor
    · intro hnil
      unfold balanceOne
    
      rw [if_pos (by omega)]
      rw [hnil]
      simp [padValue]
    · intro a as hcons
      constructor
      · intro hall
        unfold balanceOne
        rw [if_pos (by omega), hcons]
        have : padValue pv (a :: as) = a := by
          simp only [padValue]
          rw [if_pos]
          rw [List.all_eq_true]
          intro x hx
          rcases List.mem_cons.mp hx with rfl | hx'
          · simp
          · simp [hall x hx']
        rw [this]
      · intro ⟨x, hx, hxne⟩
        unfold balanceOne
        rw [if_pos (by omega), hcons]
        have : padValue pv (a :: as) = pv := by
          simp only [padValue]
          rw [if_neg]
          rw [List.all_eq_true]
          intro hc
          exact hxne (by simpa using hc x (by simp [hx]))
        rw [this]

/-- Witness for claim C1 at a concrete dictionary. -/
theorem C1_balance_lists_spec_witness :
    (balance_lists_by_item_id [("item_id", ["p", "q"]), ("y", ["z", "z", "z"])] "").isSome = true :=
  (C1_balance_lists_spec.1 [("item_id", ["p", "q"]), ("y", ["z", "z", "z"])] "" ["p", "q"] rfl).1

/-- Claim C8: list balancing is idempotent — whenever
`balance_lists_by_item_id` succeeds, applying it to its own output
returns that output unchanged. -/
theorem C8_balance_idempotent :
    ∀ (data : List (String × List String)) (pv : String) (out : List (String × List String)),
      balance_lists_by_item_id data pv = some out →
      balance_lists_by_item_id out pv = some out := by
  intro data pv out h
  unfold balance_lists_by_item_id at h ⊢
  cases hid : assocLookup "item_id" data with
  | none => rw [hid] at h; exact absurd h (by simp)
  | some ids =>
    rw [hid] at h
    injection h with h
    subst h
    rw [assocLookup_map_snd, hid]
    have hids : balanceOne ids.length pv ids = ids := balanceOne_of_length_eq pv rfl
    simp only [Option.map_some', hids]
    congr 1
    rw [List.map_map]
    apply List.map_congr_left
    intro p hp
    simp only [Function.comp_apply]
    rw [balanceOne_of_length_eq pv (balanceOne_length _ _ _)]

/-- Witness for claim C8 at a concrete balanced dictionary. -/
theorem C8_balance_idempotent_witness :
    balance_lists_by_item_id [("item_id", ["i1", "i2"]), ("q", ["w", "w"])] "" =
      some [("item_id", ["i1", "i2"]), ("q", ["w", "w"])] :=
  C8_balance_idempotent [("item_id", ["i1", "i2"]), ("q", ["w"])] ""
    [("item_id", ["i1", "i2"]), ("q", ["w", "w"])] rfl

/-- Claim C9: the filename derivations evaluate exactly as the spec's
examples state. -/
theorem C9_filename_derivation :
    extract_original_pdf_name "covalca_3_page_16.pdf" = Except.ok "covalca_3.pdf" ∧
    extract_page_number "covalca_3_page_16.pdf" = some "16" ∧
    get_original_pdf_from_generated_xlsx "covalca_9_page_3_generated.xlsx" = "covalca_9.pdf" :=
  ⟨rfl, rfl, rfl⟩

/-- Counterexample to claim C2 as stated: for the response `["```x```"]`
the chain described by the claim would parse the full trimmed response at
step (b) and recover the array, but `_extract_json_from_text` returns
`None`, because once a fenced block is found all later steps run on the
block's content only; and the bracketless response `123` is recovered as
the number `123`, not `None`. -/
theorem C2_json_recovery_counterexample :
    (_extract_json_from_text "[\"```x```\"]" = none ∧
      chainSpecOrig "[\"```x```\"]" = some (JValue.jarr [JValue.jstr "```x```"])) ∧
    ((∀ c ∈ ("123" : String).data, c ≠ lcbChar ∧ c ≠ '[' ∧ c ≠ rcbChar ∧ c ≠ ']') ∧
      _extract_json_from_text "123" = some (JValue.jnum 123)) :=
  ⟨⟨rfl, rfl⟩, ⟨by decide, rfl⟩⟩

/-- Claim C2 as amended: JSON recovery is the ordered fallback chain of
the spec with steps (b)–(d) applied to the fenced block's trimmed content
when a block is present (and to the full trimmed response only
otherwise), returning `None` when every step fails; a fenced `json` block
and a bracket-scan response recover the stated object, and a bracketless
response that is not itself valid JSON recovers nothing. -/
theorem C2_json_recovery_amended :
    (∀ text, _extract_json_from_text text = chainAmended text) ∧
    (_extract_json_from_text "```json\n\x7b\"item_id\": [\"1\"]\x7d\n```" =
      some (JValue.jobj [("item_id", JValue.jarr [JValue.jstr "1"])])) ∧
    (_extract_json_from_text "Sure! \x7b\"item_id\": [\"1\"]\x7d Thanks" =
      some (JValue.jobj [("item_id", JValue.jarr [JValue.jstr "1"])])) ∧
    (_extract_json_from_text "no json payload here" = none) := by
  refine ⟨?_, rfl, rfl, rfl⟩
  intro text
  unfold _extract_json_from_text chainAmended
  have hrec : ∀ s, recoverJsonFrom s =
      (jsonParse s <|>
        (bracketCandidate s).bind (fun cand => jsonParse cand <|> pyLiteralEval cand)) := by
    intro s
    unfold recoverJsonFrom
    cases hj : jsonParse s with
    | some v => rfl
    | none =>
      cases hb : bracketCandidate s with
      | none => rfl
      | some cand =>
        cases hjc : jsonParse cand <;> simp [hjc]
  by_cases h0 : text = ""
  · simp [h0]
  · simp only [h0, if_false]
    cases hf : fencedSearch text.data with
    | some content => exact hrec _
    | none => exact hrec _

/-- Counterexample to claim C3: with the Splitter's page-1 output
`pages/doc_page_1.pdf` already present, `split_pdf_to_pages` surfaces no
conflict — it succeeds and silently overwrites the existing file with the
newly split page. -/
theorem C3_duplicate_guard_counterexample :
    assocLookup "pages/doc_page_1.pdf"
        ([("files/doc.pdf", [10, 20]), ("pages/doc_page_1.pdf", [99])] : PdfFS) = some [99] ∧
    split_pdf_to_pages [("files/doc.pdf", [10, 20]), ("pages/doc_page_1.pdf", [99])]
        "files/doc.pdf" "pages" =
      Except.ok ⟨2, "pages",
        [("pages/doc_page_1.pdf", [10]), ("pages/doc_page_2.pdf", [20]),
         ("/var/www/openai/uploads/source/doc.pdf", [10, 20])]⟩ :=
  ⟨rfl, rfl⟩

/-- Claim C3 as amended: no stage checks for an existing output artifact.
Whenever its input exists the Splitter succeeds unconditionally (no
conflict is ever surfaced), the Extractor's persistence writes its target
path unconditionally (the path afterwards holds the new content whatever
was there before), and a concrete run over a filesystem already holding
the page-1 output shows the silent overwrite. -/
theorem C3_duplicate_guard_amended :
    (∀ (fs : PdfFS) (input_pdf output_dir : String) (pages : List Nat),
      assocLookup input_pdf fs = some pages →
      (split_pdf_to_pages fs input_pdf output_dir).isOk = true) ∧
    (∀ (fs : XlsxFS) (original_stem : String) (page : Option String) (content : Nat),
      assocLookup (extract_output_path original_stem page)
        (persist_extract_output fs original_stem page content) = some content) ∧
    (split_pdf_to_pages [("files/inv.pdf", [7]), ("pages/inv_page_1.pdf", [5])]
        "files/inv.pdf" "pages" =
      Except.ok ⟨1, "pages",
        [("pages/inv_page_1.pdf", [7]), ("/var/www/openai/uploads/source/inv.pdf", [7])]⟩) := by
  refine ⟨?_, ?_, rfl⟩
  · intro fs input_pdf output_dir pages h
    unfold split_pdf_to_pages
    rw [h]
    rfl
  · intro fs original_stem page content
    exact assocLookup_fsSet_self _ _ _

/-- Witness for the amended claim C3 at a concrete filesystem that
already holds the page-1 output. -/
theorem C3_duplicate_guard_witness :
    (split_pdf_to_pages [("files/w3.pdf", [3]), ("pages/w3_page_1.pdf", [8])]
      "files/w3.pdf" "pages").isOk = true :=
  C3_duplicate_guard_amended.1 [("files/w3.pdf", [3]), ("pages/w3_page_1.pdf", [8])]
    "files/w3.pdf" "pages" [3] rfl

/-- Counterexample to claim C4: the Extractor can emit rows whose
`clean_text` is empty or null.  A `"text"` chunk whose raw text is the
empty string is emitted with an empty `clean_text`; a chunk whose
`chunk_type` is the case variant `"Table"` is emitted with a null
`clean_text`, because `parse_table_replace` compares the type exactly
while the fallback mask lowercases it. -/
theorem C4_clean_text_counterexample :
    (extractRows ⟨"f.pdf", "u", some "1"⟩ [[⟨none, "text", "", 1⟩]]).map
        (fun r => r.clean_text) = [PyCell.str ""] ∧
    (extractRows ⟨"f.pdf", "u", some "1"⟩ [[⟨none, "Table", "<p>x</p>", 1⟩]]).map
        (fun r => r.clean_text) = [PyCell.null] :=
  ⟨rfl, rfl⟩

/-- Claim C4 as amended: every emitted row whose `chunk_type` is exactly
`"table"` carries the parsed-table representation (never null, though it
is the empty Python list when the HTML holds no table); every row whose
lowercased `chunk_type` differs from `"table"` carries its raw
`text_html` (non-null but possibly empty); a row whose `chunk_type` is a
proper case variant of `"table"` keeps a null `clean_text`.  A concrete
table chunk yields the textual tuple representation. -/
theorem C4_clean_text_amended :
    (∀ (meta : PageMeta) (chunkLists : List (List Chunk)) (r : RowC),
      r ∈ extractRows meta chunkLists →
      (r.chunk_type = "table" →
        r.clean_text = html_table_to_tuples r.text_html ∧ r.clean_text ≠ PyCell.null) ∧
      (strLower r.chunk_type ≠ "table" → r.clean_text = PyCell.str r.text_html) ∧
      (r.chunk_type ≠ "table" → strLower r.chunk_type = "table" →
        r.clean_text = PyCell.null)) ∧
    (extractRows ⟨"covalca_3.pdf", "u3", some "16"⟩
        [[⟨some "c1", "table", "<table><tr><td>a</td><td>b</td></tr></table>", 1⟩]]).map
      (fun r => r.clean_text) = [PyCell.str "[('a', 'b')]"] := by
  refine ⟨?_, by decide⟩
  intro meta chunkLists r hr
  unfold extractRows addCleanText at hr
  rcases List.mem_map.mp hr with ⟨r0, hr0, rfl⟩
  dsimp only
  by_cases ht : r0.chunk_type = "table"
  · have hlow : strLower r0.chunk_type = "table" := by rw [ht]; rfl
    have hpt : parse_table_replace r0 = html_table_to_tuples r0.text_html := by
      simp [parse_table_replace, ht]
    rw [if_neg (by simp [hlow])]
    refine ⟨fun _ => ⟨hpt, hpt ▸ html_table_to_tuples_ne_null _⟩, ?_, ?_⟩
    · intro hcon
      exact absurd hlow hcon
    · intro hcon _
      exact absurd ht hcon
  · have hpt : parse_table_replace r0 = PyCell.null := by
      simp [parse_table_replace, ht]
    by_cases hlow : strLower r0.chunk_type = "table"
    · rw [if_neg (by simp [hlow])]
      refine ⟨fun hcon => absurd hcon ht, ?_, fun _ _ => hpt⟩
      intro hcon
      exact absurd hlow hcon
    · rw [if_pos ⟨hlow, hpt⟩]
      refine ⟨fun hcon => absurd hcon ht, fun _ => rfl, ?_⟩
      intro _ hcon
      exact absurd hcon hlow

/-- Witness for the amended claim C4 at a concrete non-table chunk. -/
theorem C4_clean_text_witness :
    (⟨⟨none, 1, "text", "hi", "c4w.pdf", "u4", none⟩, PyCell.str "hi"⟩ : RowC).clean_text =
      PyCell.str "hi" :=
  ((C4_clean_text_amended.1 ⟨"c4w.pdf", "u4", none⟩ [[⟨none, "text", "hi", 1⟩]]
      ⟨⟨none, 1, "text", "hi", "c4w.pdf", "u4", none⟩, PyCell.str "hi"⟩
      (by decide)).2.1 (by decide))

/-- Claim C5: for the chunk at 0-based position `i` of a page's chunk
list, the Extractor's records whose sequence number is `i + 1` are
exactly the replicated row of that chunk — `G` copies when it has
`G ≥ 1` groundings, one copy when it has none — and every such row
carries the chunk's id, its 1-based sequence number, its type, its text,
and the page's `name_file`, `url_file` and `page` metadata. -/
theorem C5_rows_per_grounding :
    ∀ (meta : PageMeta) (chunks : List Chunk) (i : Nat) (h : i < chunks.length),
      ((buildRecords meta [chunks]).filter (fun r => r.chunk == i + 1) =
        rowsOfChunk meta (i + 1) (chunks.get ⟨i, h⟩)) ∧
      ((chunks.get ⟨i, h⟩).groundingCount = 0 →
        (rowsOfChunk meta (i + 1) (chunks.get ⟨i, h⟩)).length = 1) ∧
      (0 < (chunks.get ⟨i, h⟩).groundingCount →
        (rowsOfChunk meta (i + 1) (chunks.get ⟨i, h⟩)).length =
          (chunks.get ⟨i, h⟩).groundingCount) ∧
      (∀ r ∈ rowsOfChunk meta (i + 1) (chunks.get ⟨i, h⟩),
        r.chunk_id = (chunks.get ⟨i, h⟩).chunk_id ∧ r.chunk = i + 1 ∧
        r.chunk_type = (chunks.get ⟨i, h⟩).chunk_type ∧
        r.text_html = (chunks.get ⟨i, h⟩).text ∧
        r.name_file = meta.name_file ∧ r.url_file = meta.url_file ∧ r.page = meta.page) := by
  intro meta chunks i h
  refine ⟨?_, ?_, ?_, ?_⟩
  · have hb : buildRecords meta [chunks] = recordsFrom meta 0 chunks := by
      simp [buildRecords]
    rw [hb]
    simpa using filter_recordsFrom meta chunks 0 i h
  · intro h0
    unfold rowsOfChunk
    rw [if_pos h0]
    simp
  · intro h0
    unfold rowsOfChunk
    rw [if_neg (by omega)]
    simp
  · intro r hrr
    rcases List.eq_of_mem_replicate hrr with rfl
    exact ⟨rfl, rfl, rfl, rfl, rfl, rfl, rfl⟩

/-- Witness for claim C5: a chunk with no groundings yields exactly one
row. -/
theorem C5_rows_per_grounding_witness :
    (rowsOfChunk ⟨"w5.pdf", "u5", some "2"⟩ 1 ⟨some "id1", "title", "hello", 0⟩).length = 1 :=
  (C5_rows_per_grounding ⟨"w5.pdf", "u5", some "2"⟩ [⟨some "id1", "title", "hello", 0⟩] 0
    (by decide)).2.1 rfl

/-- Claim C6: for each of the six metadata fields, `enrich_df` broadcasts
the first non-null value of the source table's column (null when the
column is absent or all-null) onto every row of the generated table,
overwriting any existing column of that name; other columns are
untouched; and a source `page` column `[None, "3", "3"]` broadcasts
`"3"`. -/
theorem C6_enrichment_broadcast :
    (∀ (df gendf : DFm) (c : String), c ∈ meta_cols →
      assocLookup c (enrich_df df gendf) =
        some (List.replicate (dfRowCount gendf) (metaValue df c))) ∧
    (∀ (df gendf : DFm) (c : String), c ∉ meta_cols →
      assocLookup c (enrich_df df gendf) = assocLookup c gendf) ∧
    (∀ (df : DFm) (c : String), assocLookup c df = none → metaValue df c = none) ∧
    (∀ col : Col, (∀ x ∈ col, x = none) → first_non_null col = none) ∧
    (assocLookup "page"
        (enrich_df [("page", [none, some "3", some "3"])] [("item_id", [some "1", some "2"])]) =
      some [some "3", some "3"]) := by
  refine ⟨?_, ?_, ?_, ?_, by decide⟩
  · intro df gendf c hc
    unfold enrich_df
    exact assocLookup_foldl_dfSetCol_mem
      (fun c => List.replicate (dfRowCount gendf) (metaValue df c)) meta_cols gendf hc (by decide)
  · intro df gendf c hc
    unfold enrich_df
    exact assocLookup_foldl_dfSetCol_notmem
      (fun c => List.replicate (dfRowCount gendf) (metaValue df c)) meta_cols gendf hc
  · intro df c h
    unfold metaValue
    rw [h]
  · intro col h
    unfold first_non_null
    have hnil : col.filterMap id = [] := by
      rw [List.filterMap_eq_nil_iff]
      exact h
    rw [hnil]
    rfl

/-- Witness for claim C6 broadcasting a concrete `active` value. -/
theorem C6_enrichment_broadcast_witness :
    assocLookup "active" (enrich_df [("active", [some "1"])] [("q", [some "z", some "y"])]) =
      some [some "1", some "1"] :=
  C6_enrichment_broadcast.1 [("active", [some "1"])] [("q", [some "z", some "y"])] "active"
    (by decide)

/-- Claim C7: for every non-empty table, the Loader's row preparation
maps every cell through the null normalisation — a string cell that is
empty or all-whitespace becomes the literal `"NULL"`, every other cell is
unchanged (in particular `"0"`) — and renames exactly `item_id` to `item`
and `page` to `page_number`, leaving all other column names unchanged. -/
theorem C7_loader_prepare :
    (∀ df : DbDF, 0 < dbRowCount df →
      loader_prepare df = df.map (fun p => (renameCol p.1, p.2.map prepCell))) ∧
    (∀ s : String, s.data.all isPyWs = true → prepCell (DbCell.str s) = DbCell.str "NULL") ∧
    (∀ s : String, ¬ s.data.all isPyWs = true → prepCell (DbCell.str s) = DbCell.str s) ∧
    (∀ n : Int, prepCell (DbCell.int n) = DbCell.int n) ∧
    (prepCell (DbCell.str " ") = DbCell.str "NULL") ∧
    (prepCell (DbCell.str "") = DbCell.str "NULL") ∧
    (prepCell (DbCell.str "0") = DbCell.str "0") ∧
    (renameCol "item_id" = "item") ∧
    (renameCol "page" = "page_number") ∧
    (∀ c : String, c ≠ "item_id" → c ≠ "page" → renameCol c = c) := by
  refine ⟨?_, ?_, ?_, fun n => rfl, by decide, by decide, by decide, rfl, rfl, ?_⟩
  · intro df _
    unfold loader_prepare
    rw [List.map_map]
    rfl
  · intro s h
    simp only [prepCell]
    rw [if_pos h]
  · intro s h
    simp only [prepCell]
    rw [if_neg h]
  · intro c h1 h2
    unfold renameCol
    rw [if_neg h1, if_neg h2]

/-- Witness for claim C7 at a concrete one-row table. -/
theorem C7_loader_prepare_witness :
    loader_prepare [("item_id", [DbCell.str " ", DbCell.str "0"])] =
      [("item_id", [DbCell.str " ", DbCell.str "0"])].map
        (fun p => (renameCol p.1, p.2.map prepCell)) :=
  C7_loader_prepare.1 [("item_id", [DbCell.str " ", DbCell.str "0"])] (by decide)

theorem page_of_mem_buildRecords {meta : PageMeta} {r : Row} {cls : List (List Chunk)}
    (h : r ∈ buildRecords meta cls) : r.page = meta.page := by
  unfold buildRecords at h
  rcases List.mem_flatten.mp h with ⟨l, hl, hrl⟩
  rcases List.mem_map.mp hl with ⟨cs, hcs, rfl⟩
  rcases mem_recordsFrom hrl with ⟨j, hj, rfl⟩
  rfl

/-- Claim C10: a filename that ends in `.pdf` case-insensitively but does
not carry a `_page_<digits>` suffix is not rejected: the original-name
derivation returns the filename's own stem with a `.pdf` extension, the
page derivation returns `None`, and every record the Extractor builds for
such a file carries a null page. -/
theorem C10_no_page_suffix :
    ∀ fn : String, strEndsWithCI fn ".pdf" = true → fn.data.contains '/' = false →
      hasPageSuffixCI fn = false →
      extract_original_pdf_name fn = Except.ok (pyStem fn ++ ".pdf") ∧
      extract_page_number fn = none ∧
      ∀ meta', extractMeta fn = some meta' →
        meta'.page = none ∧
        ∀ (chunkLists : List (List Chunk)) (r : Row),
          r ∈ buildRecords meta' chunkLists → r.page = none := by
  intro fn hpdf hns hsuf
  have hbn : basenameOf fn = fn := basenameOf_of_no_slash hns
  have hne : fn ≠ "" := ne_empty_of_endsCI_pdf hpdf
  have hnosuf : ¬ (0 < (trailingDigits (fn.data.take (fn.data.length - 4))).length ∧
      strEndsWithCI
        (String.mk ((fn.data.take (fn.data.length - 4)).take
          ((fn.data.take (fn.data.length - 4)).length -
            (trailingDigits (fn.data.take (fn.data.length - 4))).length))) "_page_" = true) := by
    rintro ⟨ha, hb⟩
    have htrue : hasPageSuffixCI fn = true := by
      unfold hasPageSuffixCI
      rw [hpdf]
      dsimp only
      rw [hb]
      have hie : (trailingDigits (fn.data.take (fn.data.length - 4))).isEmpty = false := by
        cases hd : trailingDigits (fn.data.take (fn.data.length - 4)) with
        | nil => rw [hd] at ha; simp at ha
        | cons x xs => rfl
      rw [hie]
      rfl
    rw [htrue] at hsuf
    exact absurd hsuf (by simp)
  have h1 : extract_original_pdf_name fn = Except.ok (pyStem fn ++ ".pdf") := by
    unfold extract_original_pdf_name
    rw [if_neg hne, if_neg (by simp [hpdf]), hbn]
    dsimp only
    rw [if_neg (by rintro ⟨ha, hb, hc⟩; exact hnosuf ⟨ha, hb⟩)]
  have h2 : extract_page_number fn = none := by
    unfold extract_page_number
    by_cases hex : strEndsWith fn ".pdf" = true
    · rw [if_pos hex]
      dsimp only
      rw [if_neg ?hc]
      case hc =>
        rintro ⟨ha, hb⟩
        exact hnosuf ⟨ha, strEndsWith_imp_CI hb⟩
    · rw [if_neg hex]
  refine ⟨h1, h2, ?_⟩
  intro meta' hm
  unfold extractMeta at hm
  rw [h1] at hm
  dsimp only at hm
  have hmeta : meta' =
      { name_file := pyStem fn ++ ".pdf",
        url_file := "https://openia.soft-box.com.mx/files/" ++ (pyStem fn ++ ".pdf"),
        page := extract_page_number fn } := by
    injection hm with hm
    exact hm.symm
  subst hmeta
  refine ⟨h2, ?_⟩
  intro chunkLists r hr
  rw [page_of_mem_buildRecords hr]
  exact h2

/-- Witness for claim C10 at the filename `covalca.pdf`. -/
theorem C10_no_page_suffix_witness :
    extract_original_pdf_name "covalca.pdf" = Except.ok (pyStem "covalca.pdf" ++ ".pdf") ∧
    extract_page_number "covalca.pdf" = none :=
  ⟨(C10_no_page_suffix "covalca.pdf" (by decide) (by decide) (by decide)).1,
   (C10_no_page_suffix "covalca.pdf" (by decide) (by decide) (by decide)).2.1⟩
